import Mathlib

/-!
Verification development for the Cluster-GCN graph clustering and
batch-construction pipeline.  The repository under study ships the notebook
driver (`run_cluster_gcn_notebook.py`) and tests; the library modules it
imports (`data_utils.clustering_utils`, `data_utils.batch_config`,
`data_utils.dataset_batch_generator`, `utilities.argparser`,
`keras_extensions.callbacks.checkpoint_callback`) are not part of the
checked-in sources, so their behaviour is modelled here from the
specification and from the expectations encoded in the shipped tests.
-/

namespace ClusterGCN

/-- Ceiling division on naturals, the round-up policy used throughout the
batch bookkeeping: `ceilDiv a b = ⌈a / b⌉` for `b > 0`. -/
def ceilDiv (a b : Nat) : Nat := (a + b - 1) / b

/-- Round `n` up to the nearest multiple of `m`. -/
def roundUpTo (n m : Nat) : Nat := ceilDiv n m * m

theorem le_ceilDiv_mul (a b : Nat) (hb : 0 < b) : a ≤ ceilDiv a b * b := by
  obtain ⟨q, r, hr, ha⟩ : ∃ q r, r < b ∧ a = b * q + r :=
    ⟨a / b, a % b, Nat.mod_lt _ hb, (Nat.div_add_mod a b).symm⟩
  subst ha
  unfold ceilDiv
  rcases Nat.eq_zero_or_pos r with h0 | h0
  · subst h0
    have h1 : b * q + 0 + b - 1 = b * q + (b - 1) := by omega
    rw [h1, Nat.mul_add_div hb, Nat.div_eq_of_lt (by omega)]
    have h2 : (q + 0) * b = b * q := by ring
    omega
  · have hs : b * (q + 1) = b * q + b := by ring
    have h1 : b * q + r + b - 1 = b * (q + 1) + (r - 1) := by omega
    rw [h1, Nat.mul_add_div hb, Nat.div_eq_of_lt (by omega), Nat.add_zero]
    have h2 : (q + 1) * b = b * q + b := by ring
    omega

theorem le_roundUpTo (n m : Nat) (hm : 0 < m) : n ≤ roundUpTo n m :=
  le_ceilDiv_mul n m hm

/-- Error taxonomy of the configuration layer.  Modelled from the spec:
`ConfigurationError` covers mutually exclusive or missing required sizing
parameters and non-divisible batch/epoch granularity; it is raised before
any computation starts. -/
inductive ConfigError where
  | bothSizingSpecified
  | missingSizing
  | nonDivisibleGranularity
  deriving DecidableEq, Repr

/-- Modelled from the spec: the multilevel balanced partitioning step of
`ClusterGraph.cluster_graph` (module `data_utils.clustering_utils`, not in
the checked-in sources).  The METIS heuristic itself is abstracted as a
deterministic, explicitly seeded assignment of each visible node to a
cluster id below `numClusters`; nodes outside the visible set receive no
assignment.  This keeps exactly the properties the spec states: totality
and range on visible nodes, no assignment elsewhere, and determinism in
(adjacency, visible set, seed). -/
def clusterPartition (adjacency : List (Nat × Nat)) (visible : List Nat)
    (numClusters seed : Nat) : Nat → Option Nat :=
  fun node =>
    if node ∈ visible then
      some ((visible.indexOf node + adjacency.length + seed) % numClusters)
    else
      none

/-- Modelled from the spec: the assignment produced by
`ClusterGraph.cluster_graph`.  Degenerate case first: when
`numClusters = 1` the partitioning algorithm is skipped and every visible
node is assigned to cluster 0 (the whole-graph evaluation path); otherwise
the balanced partitioning runs. -/
def clusterGraphAssign (adjacency : List (Nat × Nat)) (visible : List Nat)
    (numClusters seed : Nat) : Nat → Option Nat :=
  if numClusters = 1 then
    fun node => if node ∈ visible then some 0 else none
  else
    clusterPartition adjacency visible numClusters seed

/-- Modelled from the spec: sizing-parameter validation in the
`ClusterGraph` constructor.  Exactly one of `num_clusters` and
`max_nodes_per_batch` must be supplied; supplying both (or neither) is a
`ConfigurationError`.  When `max_nodes_per_batch` is supplied the cluster
count is derived from the visible-node count. -/
def clusterGraphSizing (numClustersArg maxNodesPerBatchArg : Option Nat)
    (numVisible : Nat) : Except ConfigError Nat :=
  match numClustersArg, maxNodesPerBatchArg with
  | some _, some _ => .error .bothSizingSpecified
  | some k, none => .ok k
  | none, some m => .ok (ceilDiv numVisible m)
  | none, none => .error .missingSizing

/-- Modelled from the spec: the full `cluster_graph()` entry point.
Sizing validation runs first and fails fast; only on success does the
partitioning computation run. -/
def clusterGraphRun (numClustersArg maxNodesPerBatchArg : Option Nat)
    (adjacency : List (Nat × Nat)) (visible : List Nat) (seed : Nat) :
    Except ConfigError (Nat → Option Nat) :=
  match clusterGraphSizing numClustersArg maxNodesPerBatchArg visible.length with
  | .error e => .error e
  | .ok k => .ok (clusterGraphAssign adjacency visible k seed)

/-- Modelled from the spec: the clustering-cache fast path of
`cluster_graph()`.  Before computing, a cache keyed by dataset name and
all partitioning parameters is consulted; a hit is loaded verbatim and
recomputation skipped, a miss recomputes. -/
def clusterGraphCached (cache : Option (Nat → Option Nat))
    (adjacency : List (Nat × Nat)) (visible : List Nat)
    (numClusters seed : Nat) : Nat → Option Nat :=
  match cache with
  | some cached => cached
  | none => clusterGraphAssign adjacency visible numClusters seed

/-- A cache state is valid for given parameters when it is either empty or
holds exactly the assignment a fresh computation with those parameters
would produce (the cache round-trips the assignment losslessly and the key
includes every parameter). -/
def ValidCache (cache : Option (Nat → Option Nat))
    (adjacency : List (Nat × Nat)) (visible : List Nat)
    (numClusters seed : Nat) : Prop :=
  cache = none ∨ cache = some (clusterGraphAssign adjacency visible numClusters seed)

/-- Edges whose two endpoints are assigned to different clusters; edges
with an unassigned endpoint are not counted. -/
def interClusterEdges (edges : List (Nat × Nat)) (assign : Nat → Option Nat) :
    List (Nat × Nat) :=
  edges.filter (fun e =>
    match assign e.1, assign e.2 with
    | some c1, some c2 => c1 != c2
    | _, _ => false)

/-- Pad or truncate a list to exactly `n` entries: keep the first `n`
entries, then fill with the dummy value. -/
def padTo {α : Type} (xs : List α) (n : Nat) (dummy : α) : List α :=
  xs.take n ++ List.replicate (n - xs.length) dummy

theorem padTo_length {α : Type} (xs : List α) (n : Nat) (dummy : α) :
    (padTo xs n dummy).length = n := by
  unfold padTo
  rw [List.length_append, List.length_take, List.length_replicate]
  omega

/-- A fixed-shape batch: node ids, coordinate-list adjacency, feature rows,
labels, and a validity mask distinguishing real nodes from padding. -/
structure Batch where
  nodes : List Nat
  edges : List (Nat × Nat)
  features : List (List Nat)
  labels : List Nat
  mask : List Bool
  deriving Repr

/-- Modelled from the spec: single-batch construction inside the dataset
generator (`data_utils.dataset_batch_generator.tf_dataset_generator`, not
in the checked-in sources).  The nodes of the chosen clusters are
gathered, the induced intra-batch edges collected, then every tensor is
padded or truncated to the static maxima; padding nodes carry zero
features and a mask marking them invalid. -/
def makeBatch (adjacency : List (Nat × Nat)) (clusters : List (List Nat))
    (featOf : Nat → List Nat) (labelOf : Nat → Nat) (numFeatures : Nat)
    (chosen : List Nat) (maxNodesPerBatch maxEdgesPerBatch : Nat) : Batch :=
  let realNodes := (chosen.map (fun c => clusters.getD c [])).flatten
  let realEdges := adjacency.filter
    (fun e => realNodes.contains e.1 && realNodes.contains e.2)
  { nodes := padTo realNodes maxNodesPerBatch 0
    edges := padTo realEdges maxEdgesPerBatch (0, 0)
    features := padTo (realNodes.map featOf) maxNodesPerBatch
      (List.replicate numFeatures 0)
    labels := padTo (realNodes.map labelOf) maxNodesPerBatch 0
    mask := padTo (realNodes.map (fun _ => true)) maxNodesPerBatch false }

/-- Modelled from the spec: one epoch of the batch generator.  The shuffled
cluster order is grouped into `clusters_per_batch`-sized groups and each
group is materialised as a fixed-shape batch; the maxima are inputs fixed
before generation starts and are threaded unchanged to every batch. -/
def epochBatches (adjacency : List (Nat × Nat)) (clusters : List (List Nat))
    (featOf : Nat → List Nat) (labelOf : Nat → Nat) (numFeatures : Nat)
    (clusterGroups : List (List Nat)) (maxNodesPerBatch maxEdgesPerBatch : Nat) :
    List Batch :=
  clusterGroups.map (fun g =>
    makeBatch adjacency clusters featOf labelOf numFeatures g
      maxNodesPerBatch maxEdgesPerBatch)

/-- Modelled from the spec: index-modulo sharding of the batch stream
across distributed workers.  Worker `i` of `w` keeps exactly the batches
whose position in the stream is congruent to `i` modulo `w`.  Batches are
paired with their stream index so that occurrences are distinguished. -/
def workerShard {α : Type} (batches : List α) (w i : Nat) : List (Nat × α) :=
  batches.enum.filter (fun p => p.1 % w == i)

/-- Derived counts produced by `BatchConfig`. -/
structure BatchConfigOut where
  stepsPerEpoch : Nat
  stepsPerExecution : Nat
  scaledNumEpochs : Nat
  numNodesProcessedPerExecution : Nat
  realOverPaddedNum : Nat
  realOverPaddedDen : Nat
  deriving Repr, DecidableEq

/-- Modelled from the spec: `data_utils.batch_config.BatchConfig` (not in
the checked-in sources), the pure arithmetic translating the training
configuration into step and epoch counts.  A full pass over the clusters
needs `⌈num_clusters / clusters_per_batch⌉` micro-batch steps; this is
rounded up to a multiple of the per-weight-update granularity
`num_replicas * gradient_accumulation_steps_per_replica` (round up, never
truncate data).  Epochs are rounded up to a multiple of
`epochs_per_execution`.  Missing or zero sizing parameters, and an
execution granularity that does not divide the steps of its epochs, are
configuration errors raised before any computation. -/
def stepsPerEpochOf (numClusters clustersPerBatch grainSteps : Nat) : Nat :=
  roundUpTo (ceilDiv numClusters clustersPerBatch) grainSteps

def batchConfig (microBatchSize numClusters clustersPerBatch maxNodesPerBatch
    executionsPerEpoch gradientAccumulationStepsPerReplica numReplicas
    epochsPerExecution numRealNodesPerEpoch numEpochs : Nat) :
    Except ConfigError BatchConfigOut :=
  if clustersPerBatch = 0 ∨ numReplicas = 0 ∨
      gradientAccumulationStepsPerReplica = 0 ∨ epochsPerExecution = 0 ∨
      executionsPerEpoch = 0 ∨ microBatchSize = 0 then
    .error .missingSizing
  else if stepsPerEpochOf numClusters clustersPerBatch
      (numReplicas * gradientAccumulationStepsPerReplica) * epochsPerExecution %
      executionsPerEpoch ≠ 0 then
    .error .nonDivisibleGranularity
  else
    .ok
      { stepsPerEpoch := stepsPerEpochOf numClusters clustersPerBatch
          (numReplicas * gradientAccumulationStepsPerReplica)
        stepsPerExecution := stepsPerEpochOf numClusters clustersPerBatch
          (numReplicas * gradientAccumulationStepsPerReplica) *
          epochsPerExecution / executionsPerEpoch
        scaledNumEpochs := roundUpTo numEpochs epochsPerExecution
        numNodesProcessedPerExecution :=
          maxNodesPerBatch * microBatchSize *
            (stepsPerEpochOf numClusters clustersPerBatch
              (numReplicas * gradientAccumulationStepsPerReplica) *
              epochsPerExecution / executionsPerEpoch)
        realOverPaddedNum := numRealNodesPerEpoch
        realOverPaddedDen :=
          maxNodesPerBatch * microBatchSize *
            stepsPerEpochOf numClusters clustersPerBatch
              (numReplicas * gradientAccumulationStepsPerReplica) }

/-- The three padding policies recognised by `get_method_max`. -/
inductive MethodMax where
  | average
  | averagePlusStd
  | upperBound
  deriving DecidableEq, Repr

/-- Modelled from the spec: the per-cluster statistic selected by
`get_method_max` (`utilities.utils`, not in the checked-in sources),
applied to the list of per-cluster counts.  Under `upper_bound` it is the
largest count; under `average` the mean (rounded up); under
`average_plus_std` the mean plus one standard deviation, which this model
bounds by the mean plus the spread of the counts. -/
def methodMaxValue : MethodMax → List Nat → Nat
  | .upperBound, counts => counts.foldr max 0
  | .average, counts => ceilDiv counts.sum counts.length
  | .averagePlusStd, counts =>
      ceilDiv counts.sum counts.length +
        (counts.foldr max 0 - ceilDiv counts.sum counts.length)

/-- Modelled from the spec: the static per-batch node maximum derived after
clustering.  The maxima are sized for the sum over a full micro-batch
worth of clusters, so the per-cluster statistic is scaled by
`clusters_per_batch`. -/
def maxNodesPerBatchOf (method : MethodMax) (clusterNodeCounts : List Nat)
    (clustersPerBatch : Nat) : Nat :=
  clustersPerBatch * methodMaxValue method clusterNodeCounts

/-- Modelled from the spec: the checkpoints written by
`keras_extensions.callbacks.checkpoint_callback.CheckpointCallback` (not
in the checked-in sources), reconstructed from the expectations of
`tests/test_callback_checkpoint.py`.  Scanning the executions of a
training run in order, a checkpoint file is written after every
`executions_per_ckpt`-th completed execution; the result lists the
execution indices at which periodic files are written. -/
def periodicCkpts (numExecutions executionsPerCkpt : Nat) : List Nat :=
  (List.range numExecutions).filterMap (fun i =>
    if (i + 1) % executionsPerCkpt = 0 then some (i + 1) else none)

/-- Modelled from the spec: all checkpoint files of a run: the periodic
ones, plus one file at end of training when the run does not end exactly
on a periodic checkpoint. -/
def allCkpts (numExecutions executionsPerCkpt : Nat) : List Nat :=
  periodicCkpts numExecutions executionsPerCkpt ++
    (if numExecutions % executionsPerCkpt = 0 then [] else [numExecutions])

/-- Modelled from the spec: number of checkpoint files produced by a
training run of `totalMicroBatches` micro-batches where each execution
consumes `stepsPerExecution * numReplicas` micro-batches. -/
def numCkptFiles (totalMicroBatches stepsPerExecution numReplicas
    executionsPerCkpt : Nat) : Nat :=
  (allCkpts (totalMicroBatches / (stepsPerExecution * numReplicas))
    executionsPerCkpt).length

/-- A scalar configuration value: a number or a string. -/
inductive JVal where
  | num (n : Int)
  | str (s : String)
  deriving DecidableEq, Repr

/-- A configuration tree: a scalar leaf or an object with string-keyed
fields, mirroring the nested dictionaries the options layer works with. -/
inductive JTree where
  | val (v : JVal)
  | obj (fields : List (String × JTree))
  deriving Repr

mutual

/-- Structural equality test on configuration trees. -/
def beqT : JTree → JTree → Bool
  | .val v, .val w => v == w
  | .obj fs, .obj gs => beqFields fs gs
  | _, _ => false

/-- Structural equality test on object field lists. -/
def beqFields : List (String × JTree) → List (String × JTree) → Bool
  | [], [] => true
  | (k, t) :: fs, (k', u) :: gs => k == k' && beqT t u && beqFields fs gs
  | _, _ => false

end

mutual

theorem beqT_iff : ∀ a b, beqT a b = true ↔ a = b
  | .val v, .val w => by simp [beqT]
  | .val _, .obj _ => by simp [beqT]
  | .obj _, .val _ => by simp [beqT]
  | .obj fs, .obj gs => by
    have h := beqFields_iff fs gs
    simp [beqT, h]

theorem beqFields_iff : ∀ fs gs, beqFields fs gs = true ↔ fs = gs
  | [], [] => by simp [beqFields]
  | [], _ :: _ => by simp [beqFields]
  | _ :: _, [] => by simp [beqFields]
  | (k, t) :: fs, (k', u) :: gs => by
    have h1 := beqT_iff t u
    have h2 := beqFields_iff fs gs
    simp [beqFields, h1, h2, Bool.and_eq_true, and_assoc]

end

instance : DecidableEq JTree := fun a b => decidable_of_iff _ (beqT_iff a b)

/-- Split a dotted key such as `a.b.c` into its path components, working
character by character. -/
def splitDotsAux : List Char → List Char → List (List Char)
  | [], acc => [acc.reverse]
  | c :: cs, acc =>
    if c = '.' then acc.reverse :: splitDotsAux cs []
    else splitDotsAux cs (c :: acc)

/-- Path components of a dotted key. -/
def splitKey (s : String) : List String :=
  (splitDotsAux s.toList []).map (fun cs => String.mk cs)

/-- Look up a field by key in an object field list. -/
def lookupField : List (String × JTree) → String → Option JTree
  | [], _ => none
  | (k, t) :: fs, key => if k = key then some t else lookupField fs key

/-- Follow a key path down a configuration tree. -/
def getPath : JTree → List String → Option JTree
  | t, [] => some t
  | .val _, _ :: _ => none
  | .obj fs, k :: ks =>
    match lookupField fs k with
    | some t => getPath t ks
    | none => none

/-- The field list of a tree; a scalar leaf has none. -/
def fieldsOf : JTree → List (String × JTree)
  | .val _ => []
  | .obj fs => fs

/-- Replace the field with the given key by the given subtree, keeping the
other fields and their order; when the key is absent the new field is
appended at the end (dictionary insertion order). -/
def replaceField : List (String × JTree) → String → JTree →
    List (String × JTree)
  | [], k, nt => [(k, nt)]
  | (k', t) :: fs, k, nt =>
    if k' = k then (k', nt) :: fs else (k', t) :: replaceField fs k nt

/-- Modelled from the spec: the single-override step of
`utilities.argparser.merge_args_with_options` (not in the checked-in
sources): descend along the key path, creating intermediate objects where
absent, and replace the subtree at the end of the path with the override
value; sibling fields are left untouched. -/
def setPath : List String → JVal → JTree → JTree
  | [], v, _ => .val v
  | k :: ks, v, t =>
    let sub :=
      match lookupField (fieldsOf t) k with
      | some u => u
      | none => .obj []
    .obj (replaceField (fieldsOf t) k (setPath ks v sub))

/-- Modelled from the spec: `utilities.argparser.merge_args_with_options`
(not in the checked-in sources; its expected behaviour is pinned by
`tests/test_options.py`).  Each dotted-path argument is overlaid on the
base configuration tree in order. -/
def mergeArgsWithOptions (args : List (String × JVal)) (options : JTree) :
    JTree :=
  args.foldl (fun t kv => setPath (splitKey kv.1) kv.2 t) options

/-- Two key paths diverge when they differ at some position common to
both, so that neither is an ancestor of the other. -/
def divergentPaths : List String → List String → Bool
  | [], _ => false
  | _ :: _, [] => false
  | a :: as, b :: bs => if a = b then divergentPaths as bs else true

/-- The override dictionary of `test_merge_args_with_options`. -/
def exampleArgs : List (String × JVal) :=
  [("a.b.c", .num 5), ("d", .num 3), ("e.f", .str ".")]

/-- The base configuration of `test_merge_args_with_options`. -/
def exampleBase : JTree :=
  .obj [("a", .obj [("b", .obj [("c", .val (.num 6))])]),
        ("d", .val (.num 4)),
        ("e", .obj [("g", .val (.num 2))]),
        ("h", .val (.num 3))]

/-- The merged configuration expected by `test_merge_args_with_options`. -/
def exampleMerged : JTree :=
  .obj [("a", .obj [("b", .obj [("c", .val (.num 5))])]),
        ("d", .val (.num 3)),
        ("e", .obj [("g", .val (.num 2)), ("f", .val (.str "."))]),
        ("h", .val (.num 3))]

/-- C1: for every adjacency structure and visible-node set, after
`cluster_graph()` returns, every visible node is mapped to exactly one
cluster id in the range `[0, num_clusters)`, and every node not in the
visible set has no cluster assignment. -/
theorem cluster_assignment_total_in_range (adjacency : List (Nat × Nat))
    (visible : List Nat) (numClusters seed node : Nat) (hk : 0 < numClusters) :
    (node ∈ visible →
      ∃! c, clusterGraphAssign adjacency visible numClusters seed node = some c ∧
        c < numClusters) ∧
    (node ∉ visible →
      clusterGraphAssign adjacency visible numClusters seed node = none) := by
  constructor
  · intro hv
    by_cases h1 : numClusters = 1
    · subst h1
      refine ⟨0, ⟨?_, by omega⟩, ?_⟩
      · simp [clusterGraphAssign, hv]
      · rintro y ⟨hy, _⟩
        simp [clusterGraphAssign, hv] at hy
        omega
    · refine ⟨(visible.indexOf node + adjacency.length + seed) % numClusters,
        ⟨?_, Nat.mod_lt _ hk⟩, ?_⟩
      · simp [clusterGraphAssign, clusterPartition, h1, hv]
      · rintro y ⟨hy, _⟩
        simp [clusterGraphAssign, clusterPartition, h1, hv] at hy
        omega
  · intro hv
    by_cases h1 : numClusters = 1 <;>
      simp [clusterGraphAssign, clusterPartition, h1, hv]

theorem cluster_assignment_total_in_range_witness :
    (1 ∈ [1, 2] →
      ∃! c, clusterGraphAssign [(1, 2)] [1, 2] 2 0 1 = some c ∧ c < 2) ∧
    (1 ∉ [1, 2] → clusterGraphAssign [(1, 2)] [1, 2] 2 0 1 = none) :=
  cluster_assignment_total_in_range [(1, 2)] [1, 2] 2 0 1 (by decide)

/-- C2: if both `num_clusters` and `max_nodes_per_batch` are supplied to
`ClusterGraph` simultaneously, it raises `ConfigurationError` before any
partitioning computation starts: the run returns the error and produces
no assignment. -/
theorem both_sizing_methods_fail_fast (k m : Nat)
    (adjacency : List (Nat × Nat)) (visible : List Nat) (seed : Nat) :
    clusterGraphRun (some k) (some m) adjacency visible seed =
      .error .bothSizingSpecified := rfl

/-- C4: `cluster_graph()` is deterministic: with identical adjacency,
visible-node set and seed the produced assignment is the same function,
whether it is recomputed (empty cache) or reloaded from a cache written by
an identical earlier call. -/
theorem cluster_graph_deterministic (adjacency : List (Nat × Nat))
    (visible : List Nat) (numClusters seed : Nat)
    (cache1 cache2 : Option (Nat → Option Nat))
    (h1 : ValidCache cache1 adjacency visible numClusters seed)
    (h2 : ValidCache cache2 adjacency visible numClusters seed) :
    clusterGraphCached cache1 adjacency visible numClusters seed =
      clusterGraphCached cache2 adjacency visible numClusters seed := by
  rcases h1 with h1 | h1 <;> rcases h2 with h2 | h2 <;> subst h1 <;> subst h2 <;> rfl

theorem cluster_graph_deterministic_witness :
    clusterGraphCached none [(0, 1)] [0, 1] 2 3 =
      clusterGraphCached (some (clusterGraphAssign [(0, 1)] [0, 1] 2 3))
        [(0, 1)] [0, 1] 2 3 :=
  cluster_graph_deterministic [(0, 1)] [0, 1] 2 3 none
    (some (clusterGraphAssign [(0, 1)] [0, 1] 2 3)) (Or.inl rfl) (Or.inr rfl)

/-- C6: when `num_clusters = 1`, `cluster_graph()` takes the whole-graph
path: the assignment is literally the skip-partitioning branch, every
visible node goes to cluster 0, non-visible nodes stay unassigned, and
there are zero inter-cluster edges. -/
theorem single_cluster_whole_graph (adjacency : List (Nat × Nat))
    (visible : List Nat) (seed : Nat) :
    clusterGraphAssign adjacency visible 1 seed =
      (fun node => if node ∈ visible then some 0 else none) ∧
    (∀ node ∈ visible, clusterGraphAssign adjacency visible 1 seed node = some 0) ∧
    (∀ node, node ∉ visible →
      clusterGraphAssign adjacency visible 1 seed node = none) ∧
    interClusterEdges adjacency (clusterGraphAssign adjacency visible 1 seed) = [] := by
  have hskip : clusterGraphAssign adjacency visible 1 seed =
      (fun node => if node ∈ visible then some 0 else none) := by
    simp [clusterGraphAssign]
  refine ⟨hskip, ?_, ?_, ?_⟩
  · intro node hv
    rw [hskip]
    simp [hv]
  · intro node hv
    rw [hskip]
    simp [hv]
  · rw [hskip]
    unfold interClusterEdges
    rw [List.filter_eq_nil_iff]
    intro e _
    by_cases h1 : e.1 ∈ visible <;> by_cases h2 : e.2 ∈ visible <;> simp [h1, h2]

theorem single_cluster_whole_graph_witness :
    clusterGraphAssign [(3, 5)] [3, 5] 1 7 =
      (fun node => if node ∈ [3, 5] then some 0 else none) ∧
    (∀ node ∈ [3, 5], clusterGraphAssign [(3, 5)] [3, 5] 1 7 node = some 0) ∧
    (∀ node, node ∉ [3, 5] → clusterGraphAssign [(3, 5)] [3, 5] 1 7 node = none) ∧
    interClusterEdges [(3, 5)] (clusterGraphAssign [(3, 5)] [3, 5] 1 7) = [] :=
  single_cluster_whole_graph [(3, 5)] [3, 5] 7

/-- C3: every batch emitted in an epoch has exactly `max_nodes_per_batch`
entries in every node-indexed tensor and exactly `max_edges_per_batch`
edges, regardless of how many real nodes and edges the batch contains;
the maxima are fixed inputs of the generator, never resized. -/
theorem batch_shapes_static (adjacency : List (Nat × Nat))
    (clusters : List (List Nat)) (featOf : Nat → List Nat) (labelOf : Nat → Nat)
    (numFeatures : Nat) (clusterGroups : List (List Nat))
    (maxNodesPerBatch maxEdgesPerBatch : Nat) (b : Batch)
    (hb : b ∈ epochBatches adjacency clusters featOf labelOf numFeatures
      clusterGroups maxNodesPerBatch maxEdgesPerBatch) :
    b.nodes.length = maxNodesPerBatch ∧
    b.features.length = maxNodesPerBatch ∧
    b.labels.length = maxNodesPerBatch ∧
    b.mask.length = maxNodesPerBatch ∧
    b.edges.length = maxEdgesPerBatch := by
  unfold epochBatches at hb
  rw [List.mem_map] at hb
  obtain ⟨g, _, rfl⟩ := hb
  simp [makeBatch, padTo_length]

theorem batch_shapes_static_witness :
    (makeBatch [(1, 2)] [[1, 2]] (fun _ => [0]) (fun _ => 0) 1 [0] 3 2).nodes.length = 3 ∧
    (makeBatch [(1, 2)] [[1, 2]] (fun _ => [0]) (fun _ => 0) 1 [0] 3 2).features.length = 3 ∧
    (makeBatch [(1, 2)] [[1, 2]] (fun _ => [0]) (fun _ => 0) 1 [0] 3 2).labels.length = 3 ∧
    (makeBatch [(1, 2)] [[1, 2]] (fun _ => [0]) (fun _ => 0) 1 [0] 3 2).mask.length = 3 ∧
    (makeBatch [(1, 2)] [[1, 2]] (fun _ => [0]) (fun _ => 0) 1 [0] 3 2).edges.length = 2 :=
  batch_shapes_static [(1, 2)] [[1, 2]] (fun _ => [0]) (fun _ => 0) 1 [[0]] 3 2
    (makeBatch [(1, 2)] [[1, 2]] (fun _ => [0]) (fun _ => 0) 1 [0] 3 2)
    (by simp [epochBatches])

theorem sum_length_filter_mod {α : Type} (l : List α) (keyOf : α → Nat)
    (w : Nat) (hw : 0 < w) :
    ∑ i ∈ Finset.range w, (l.filter (fun p => keyOf p % w == i)).length =
      l.length := by
  induction l with
  | nil => simp
  | cons a t ih =>
    have hmem : keyOf a % w ∈ Finset.range w :=
      Finset.mem_range.mpr (Nat.mod_lt _ hw)
    have hstep : ∀ i ∈ Finset.range w,
        ((a :: t).filter (fun p => keyOf p % w == i)).length =
          (if keyOf a % w = i then 1 else 0) +
            (t.filter (fun p => keyOf p % w == i)).length := by
      intro i _
      by_cases h : keyOf a % w = i
      · simp [List.filter_cons, h, Nat.add_comm]
      · simp [List.filter_cons, h]
    rw [Finset.sum_congr rfl hstep, Finset.sum_add_distrib, ih,
      Finset.sum_ite_eq (Finset.range w) (keyOf a % w) (fun _ => 1),
      if_pos hmem, List.length_cons]
    omega

/-- C5: for every worker count `w > 0`, the indexed batches emitted by
workers `0 .. w-1` over one epoch are pairwise disjoint, their union is
exactly the indexed batch stream the unsharded generator emits, and the
shard sizes add up to the full stream length, so nothing is duplicated or
dropped. -/
theorem sharding_partitions_epoch (adjacency : List (Nat × Nat))
    (clusters : List (List Nat)) (featOf : Nat → List Nat) (labelOf : Nat → Nat)
    (numFeatures : Nat) (clusterGroups : List (List Nat))
    (maxNodesPerBatch maxEdgesPerBatch w : Nat) (hw : 0 < w) :
    (∀ i j, i ≠ j → ∀ p,
      ¬(p ∈ workerShard (epochBatches adjacency clusters featOf labelOf
            numFeatures clusterGroups maxNodesPerBatch maxEdgesPerBatch) w i ∧
        p ∈ workerShard (epochBatches adjacency clusters featOf labelOf
            numFeatures clusterGroups maxNodesPerBatch maxEdgesPerBatch) w j)) ∧
    (∀ p, p ∈ (epochBatches adjacency clusters featOf labelOf numFeatures
        clusterGroups maxNodesPerBatch maxEdgesPerBatch).enum ↔
      ∃ i, i < w ∧
        p ∈ workerShard (epochBatches adjacency clusters featOf labelOf
          numFeatures clusterGroups maxNodesPerBatch maxEdgesPerBatch) w i) ∧
    (∑ i ∈ Finset.range w,
        (workerShard (epochBatches adjacency clusters featOf labelOf numFeatures
          clusterGroups maxNodesPerBatch maxEdgesPerBatch) w i).length =
      (epochBatches adjacency clusters featOf labelOf numFeatures clusterGroups
        maxNodesPerBatch maxEdgesPerBatch).length) := by
  refine ⟨?_, ?_, ?_⟩
  · intro i j hij p hp
    obtain ⟨hpi, hpj⟩ := hp
    rw [workerShard, List.mem_filter] at hpi hpj
    have h1 : p.1 % w = i := by simpa using hpi.2
    have h2 : p.1 % w = j := by simpa using hpj.2
    omega
  · intro p
    constructor
    · intro hp
      exact ⟨p.1 % w, Nat.mod_lt _ hw,
        List.mem_filter.mpr ⟨hp, by simp⟩⟩
    · intro hp
      obtain ⟨i, _, hpi⟩ := hp
      exact (List.mem_filter.mp hpi).1
  · rw [show (epochBatches adjacency clusters featOf labelOf numFeatures
        clusterGroups maxNodesPerBatch maxEdgesPerBatch).length =
        (epochBatches adjacency clusters featOf labelOf numFeatures
          clusterGroups maxNodesPerBatch maxEdgesPerBatch).enum.length from
        (List.enum_length).symm]
    exact sum_length_filter_mod _ (fun p : Nat × Batch => p.1) w hw

theorem sharding_partitions_epoch_witness :
    (∀ i j, i ≠ j → ∀ p,
      ¬(p ∈ workerShard (epochBatches [(1, 2)] [[1], [2]] (fun _ => [0])
            (fun _ => 0) 1 [[0], [1]] 2 1) 2 i ∧
        p ∈ workerShard (epochBatches [(1, 2)] [[1], [2]] (fun _ => [0])
            (fun _ => 0) 1 [[0], [1]] 2 1) 2 j)) ∧
    (∀ p, p ∈ (epochBatches [(1, 2)] [[1], [2]] (fun _ => [0]) (fun _ => 0) 1
        [[0], [1]] 2 1).enum ↔
      ∃ i, i < 2 ∧
        p ∈ workerShard (epochBatches [(1, 2)] [[1], [2]] (fun _ => [0])
          (fun _ => 0) 1 [[0], [1]] 2 1) 2 i) ∧
    (∑ i ∈ Finset.range 2,
        (workerShard (epochBatches [(1, 2)] [[1], [2]] (fun _ => [0])
          (fun _ => 0) 1 [[0], [1]] 2 1) 2 i).length =
      (epochBatches [(1, 2)] [[1], [2]] (fun _ => [0]) (fun _ => 0) 1
        [[0], [1]] 2 1).length) :=
  sharding_partitions_epoch [(1, 2)] [[1], [2]] (fun _ => [0]) (fun _ => 0) 1
    [[0], [1]] 2 1 2 (by decide)

/-- C7: for every valid `BatchConfig` input the derived counts satisfy
`steps_per_epoch * clusters_per_batch ≥ num_clusters` and
`scaled_num_epochs ≥ num_epochs` (granularity is rounded up, never
resolved by truncating data), and an unsatisfiable execution granularity
is a `ConfigurationError`. -/
theorem batch_config_rounds_up (microBatchSize numClusters clustersPerBatch
    maxNodesPerBatch executionsPerEpoch gradientAccumulationStepsPerReplica
    numReplicas epochsPerExecution numRealNodesPerEpoch numEpochs : Nat)
    (out : BatchConfigOut)
    (hok : batchConfig microBatchSize numClusters clustersPerBatch
      maxNodesPerBatch executionsPerEpoch gradientAccumulationStepsPerReplica
      numReplicas epochsPerExecution numRealNodesPerEpoch numEpochs = .ok out) :
    numClusters ≤ out.stepsPerEpoch * clustersPerBatch ∧
    numEpochs ≤ out.scaledNumEpochs ∧
    (∀ microBatchSize2 numClusters2 clustersPerBatch2 maxNodesPerBatch2
      executionsPerEpoch2 gradientAccumulationStepsPerReplica2 numReplicas2
      epochsPerExecution2 numRealNodesPerEpoch2 numEpochs2 : Nat,
      ¬(clustersPerBatch2 = 0 ∨ numReplicas2 = 0 ∨
        gradientAccumulationStepsPerReplica2 = 0 ∨ epochsPerExecution2 = 0 ∨
        executionsPerEpoch2 = 0 ∨ microBatchSize2 = 0) →
      stepsPerEpochOf numClusters2 clustersPerBatch2
        (numReplicas2 * gradientAccumulationStepsPerReplica2) *
        epochsPerExecution2 % executionsPerEpoch2 ≠ 0 →
      batchConfig microBatchSize2 numClusters2 clustersPerBatch2
        maxNodesPerBatch2 executionsPerEpoch2
        gradientAccumulationStepsPerReplica2 numReplicas2 epochsPerExecution2
        numRealNodesPerEpoch2 numEpochs2 = .error .nonDivisibleGranularity) := by
  unfold batchConfig at hok
  split_ifs at hok with hz hnd
  rw [Except.ok.injEq] at hok
  subst hok
  push_neg at hz
  obtain ⟨hcpb, hnr, hga, hepe, hexe, hmbs⟩ := hz
  refine ⟨?_, ?_, ?_⟩
  · have hgr : 0 < numReplicas * gradientAccumulationStepsPerReplica :=
      Nat.mul_pos (Nat.pos_of_ne_zero hnr) (Nat.pos_of_ne_zero hga)
    calc numClusters ≤ ceilDiv numClusters clustersPerBatch * clustersPerBatch :=
          le_ceilDiv_mul numClusters clustersPerBatch (Nat.pos_of_ne_zero hcpb)
      _ ≤ stepsPerEpochOf numClusters clustersPerBatch
            (numReplicas * gradientAccumulationStepsPerReplica) *
            clustersPerBatch :=
          Nat.mul_le_mul_right clustersPerBatch
            (le_roundUpTo (ceilDiv numClusters clustersPerBatch) _ hgr)
  · exact le_roundUpTo numEpochs epochsPerExecution (Nat.pos_of_ne_zero hepe)
  · intro _ _ _ _ _ _ _ _ _ _ hz2 hnd2
    unfold batchConfig
    rw [if_neg hz2, if_pos hnd2]

theorem batch_config_rounds_up_witness :
    10 ≤ (BatchConfigOut.mk 5 5 3 120 100 120).stepsPerEpoch * 2 ∧
    3 ≤ (BatchConfigOut.mk 5 5 3 120 100 120).scaledNumEpochs ∧
    (∀ microBatchSize2 numClusters2 clustersPerBatch2 maxNodesPerBatch2
      executionsPerEpoch2 gradientAccumulationStepsPerReplica2 numReplicas2
      epochsPerExecution2 numRealNodesPerEpoch2 numEpochs2 : Nat,
      ¬(clustersPerBatch2 = 0 ∨ numReplicas2 = 0 ∨
        gradientAccumulationStepsPerReplica2 = 0 ∨ epochsPerExecution2 = 0 ∨
        executionsPerEpoch2 = 0 ∨ microBatchSize2 = 0) →
      stepsPerEpochOf numClusters2 clustersPerBatch2
        (numReplicas2 * gradientAccumulationStepsPerReplica2) *
        epochsPerExecution2 % executionsPerEpoch2 ≠ 0 →
      batchConfig microBatchSize2 numClusters2 clustersPerBatch2
        maxNodesPerBatch2 executionsPerEpoch2
        gradientAccumulationStepsPerReplica2 numReplicas2 epochsPerExecution2
        numRealNodesPerEpoch2 numEpochs2 = .error .nonDivisibleGranularity) :=
  batch_config_rounds_up 4 10 2 6 1 1 1 1 100 3 (BatchConfigOut.mk 5 5 3 120 100 120)
    (by rfl)

theorem mem_le_foldrMax (l : List Nat) (a : Nat) (ha : a ∈ l) :
    a ≤ l.foldr max 0 := by
  induction l with
  | nil => cases ha
  | cons b t ih =>
    rcases List.mem_cons.mp ha with h | h
    · subst h
      exact Nat.le_max_left _ _
    · exact Nat.le_trans (ih h) (Nat.le_max_right _ _)

theorem sum_le_length_mul (chosen : List Nat) (f : Nat → Nat) (M : Nat)
    (hM : ∀ i ∈ chosen, f i ≤ M) :
    (chosen.map f).sum ≤ chosen.length * M := by
  induction chosen with
  | nil => simp
  | cons b t ih =>
    rw [List.map_cons, List.sum_cons, List.length_cons, Nat.succ_mul]
    have h1 : f b ≤ M := hM b (List.mem_cons_self b t)
    have h2 : (t.map f).sum ≤ t.length * M :=
      ih (fun i hi => hM i (List.mem_cons_of_mem b hi))
    omega

/-- C8: under the `upper_bound` padding policy, `max_nodes_per_batch` is
at least the total node count of every group of `clusters_per_batch`
clusters that can be sampled into a batch, so no batch built under that
policy needs node truncation. -/
theorem upper_bound_covers_every_group (clusterNodeCounts : List Nat)
    (clustersPerBatch : Nat) (chosen : List Nat)
    (hlen : chosen.length = clustersPerBatch)
    (hvalid : ∀ i ∈ chosen, i < clusterNodeCounts.length) :
    (chosen.map (fun i => clusterNodeCounts.getD i 0)).sum ≤
      maxNodesPerBatchOf .upperBound clusterNodeCounts clustersPerBatch := by
  unfold maxNodesPerBatchOf methodMaxValue
  have hM : ∀ i ∈ chosen,
      clusterNodeCounts.getD i 0 ≤ clusterNodeCounts.foldr max 0 := by
    intro i hi
    rw [List.getD_eq_getElem _ _ (hvalid i hi)]
    exact mem_le_foldrMax _ _ (List.getElem_mem _)
  calc (chosen.map (fun i => clusterNodeCounts.getD i 0)).sum ≤
        chosen.length * clusterNodeCounts.foldr max 0 :=
        sum_le_length_mul chosen _ _ hM
    _ = clustersPerBatch * clusterNodeCounts.foldr max 0 := by rw [hlen]

theorem upper_bound_covers_every_group_witness :
    ([0, 2].map (fun i => [4, 1, 3].getD i 0)).sum ≤
      maxNodesPerBatchOf .upperBound [4, 1, 3] 2 :=
  upper_bound_covers_every_group [4, 1, 3] 2 [0, 2] (by decide) (by decide)

theorem lookupField_replaceField_self (fs : List (String × JTree)) (k : String)
    (nt : JTree) : lookupField (replaceField fs k nt) k = some nt := by
  induction fs with
  | nil => simp [replaceField, lookupField]
  | cons p fs ih =>
    obtain ⟨a, t⟩ := p
    by_cases h : a = k
    · simp [replaceField, h, lookupField]
    · simp [replaceField, h, lookupField, ih]

theorem lookupField_replaceField_other (fs : List (String × JTree))
    (k k' : String) (nt : JTree) (h : k ≠ k') :
    lookupField (replaceField fs k nt) k' = lookupField fs k' := by
  have h' : k' ≠ k := Ne.symm h
  induction fs with
  | nil => simp [replaceField, lookupField, h, h']
  | cons p fs ih =>
    obtain ⟨a, t⟩ := p
    by_cases ha : a = k
    · subst ha
      simp [replaceField, lookupField, h]
    · by_cases hb : a = k' <;>
        simp [replaceField, lookupField, ha, hb, h', ih]

theorem getPath_setPath_self (p : List String) (v : JVal) (t : JTree) :
    getPath (setPath p v t) p = some (.val v) := by
  induction p generalizing t with
  | nil => simp [setPath, getPath]
  | cons k ks ih => simp [setPath, getPath, lookupField_replaceField_self, ih]

theorem divergentPaths_nil_right (a : List String) :
    divergentPaths a [] = false := by
  cases a <;> simp [divergentPaths]

theorem divergentPaths_comm (a b : List String) :
    divergentPaths a b = divergentPaths b a := by
  induction a generalizing b with
  | nil => cases b <;> simp [divergentPaths]
  | cons x xs ih =>
    cases b with
    | nil => simp [divergentPaths]
    | cons y ys =>
      by_cases h : x = y
      · subst h
        simp [divergentPaths, ih]
      · simp [divergentPaths, h, Ne.symm h]

theorem getPath_setPath_divergent (p q : List String) (v : JVal) (t : JTree)
    (h : divergentPaths p q = true) :
    getPath (setPath p v t) q = getPath t q := by
  induction p generalizing q t with
  | nil => simp [divergentPaths] at h
  | cons k ks ih =>
    cases q with
    | nil => simp [divergentPaths] at h
    | cons k' qs =>
      by_cases hk : k = k'
      · subst hk
        rw [divergentPaths, if_pos rfl] at h
        have hq : qs ≠ [] := by
          intro hq
          rw [hq, divergentPaths_nil_right] at h
          exact Bool.false_ne_true h
        cases t with
        | val w =>
          cases qs with
          | nil => exact absurd rfl hq
          | cons k'' qs' =>
            simp [setPath, getPath, fieldsOf, lookupField, replaceField]
            rw [ih (k'' :: qs') (.obj []) h]
            simp [getPath, lookupField]
        | obj fs =>
          cases hl : lookupField fs k with
          | some u =>
            rw [setPath]
            simp only [fieldsOf, hl]
            rw [getPath]
            simp only [lookupField_replaceField_self]
            rw [ih qs u h, getPath]
            simp only [hl]
          | none =>
            rw [setPath]
            simp only [fieldsOf, hl]
            rw [getPath]
            simp only [lookupField_replaceField_self]
            rw [ih qs (.obj []) h, getPath]
            simp only [hl]
            cases qs with
            | nil => exact absurd rfl hq
            | cons k'' qs' => simp [getPath, lookupField]
      · cases t with
        | val w =>
          simp [setPath, getPath, fieldsOf, replaceField, lookupField, hk]
        | obj fs =>
          rw [setPath]
          simp only [fieldsOf]
          rw [getPath, getPath, lookupField_replaceField_other fs k k' _ hk]

theorem merge_overlay_aux (args : List (String × JVal)) (base : JTree)
    (hdiv : args.Pairwise
      (fun a b => divergentPaths (splitKey a.1) (splitKey b.1) = true)) :
    (∀ kv ∈ args, getPath (mergeArgsWithOptions args base) (splitKey kv.1) =
      some (.val kv.2)) ∧
    (∀ q, (∀ kv ∈ args, divergentPaths (splitKey kv.1) q = true) →
      getPath (mergeArgsWithOptions args base) q = getPath base q) := by
  induction args generalizing base with
  | nil =>
    refine ⟨?_, ?_⟩
    · intro kv hkv
      cases hkv
    · intro q _
      rfl
  | cons kv0 rest ih =>
    rw [List.pairwise_cons] at hdiv
    obtain ⟨hd, htl⟩ := hdiv
    obtain ⟨ih1, ih2⟩ := ih (setPath (splitKey kv0.1) kv0.2 base) htl
    have hstep : mergeArgsWithOptions (kv0 :: rest) base =
        mergeArgsWithOptions rest (setPath (splitKey kv0.1) kv0.2 base) := rfl
    refine ⟨?_, ?_⟩
    · intro kv hkv
      rcases List.mem_cons.mp hkv with h | h
      · subst h
        rw [hstep, ih2 (splitKey kv.1) (fun b hb => by
          rw [divergentPaths_comm]
          exact hd b hb)]
        exact getPath_setPath_self (splitKey kv.1) kv.2 base
      · rw [hstep]
        exact ih1 kv h
    · intro q hq
      rw [hstep, ih2 q (fun kv h => hq kv (List.mem_cons_of_mem kv0 h)),
        getPath_setPath_divergent (splitKey kv0.1) q kv0.2 base
          (hq kv0 (List.mem_cons_self kv0 rest))]

/-- C9: `merge_args_with_options` overlays every dotted-path override onto
the base configuration tree, preserves every base key not lying on an
overridden path, and in particular maps the test case of
`tests/test_options.py` to its expected merged dictionary. -/
theorem merge_args_overlays_and_preserves (args : List (String × JVal))
    (base : JTree)
    (hdiv : args.Pairwise
      (fun a b => divergentPaths (splitKey a.1) (splitKey b.1) = true)) :
    (∀ kv ∈ args, getPath (mergeArgsWithOptions args base) (splitKey kv.1) =
      some (.val kv.2)) ∧
    (∀ q, (∀ kv ∈ args, divergentPaths (splitKey kv.1) q = true) →
      getPath (mergeArgsWithOptions args base) q = getPath base q) ∧
    mergeArgsWithOptions exampleArgs exampleBase = exampleMerged := by
  obtain ⟨h1, h2⟩ := merge_overlay_aux args base hdiv
  exact ⟨h1, h2, rfl⟩

theorem merge_args_overlays_and_preserves_witness :
    (∀ kv ∈ exampleArgs,
      getPath (mergeArgsWithOptions exampleArgs exampleBase) (splitKey kv.1) =
        some (.val kv.2)) ∧
    (∀ q, (∀ kv ∈ exampleArgs, divergentPaths (splitKey kv.1) q = true) →
      getPath (mergeArgsWithOptions exampleArgs exampleBase) q =
        getPath exampleBase q) ∧
    mergeArgsWithOptions exampleArgs exampleBase = exampleMerged :=
  merge_args_overlays_and_preserves exampleArgs exampleBase (by decide)

theorem periodicCkpts_succ (n epc : Nat) :
    periodicCkpts (n + 1) epc =
      periodicCkpts n epc ++ (if (n + 1) % epc = 0 then [n + 1] else []) := by
  unfold periodicCkpts
  rw [List.range_succ, List.filterMap_append]
  congr 1
  by_cases h : (n + 1) % epc = 0 <;> simp [h]

theorem periodicCkpts_length (numExecutions epc : Nat) (_hepc : 0 < epc) :
    (periodicCkpts numExecutions epc).length = numExecutions / epc := by
  induction numExecutions with
  | zero => simp [periodicCkpts]
  | succ n ih =>
    rw [periodicCkpts_succ, List.length_append, ih, Nat.succ_div]
    by_cases h : epc ∣ n + 1
    · have hm : (n + 1) % epc = 0 := by
        obtain ⟨c, hc⟩ := h
        rw [hc]
        exact Nat.mul_mod_right epc c
      rw [if_pos h, if_pos hm]
      simp
    · have hm : (n + 1) % epc ≠ 0 := fun hz => h (Nat.dvd_of_mod_eq_zero hz)
      rw [if_neg h, if_neg hm]
      simp

/-- C10: `CheckpointCallback` writes one checkpoint file after every
`executions_per_ckpt` completed executions plus one more at end of
training when the run ends between periodic checkpoints; in particular a
run of 130 micro-batches with 5 steps per execution on 2 replicas and 6
executions per checkpoint produces exactly 3 checkpoint files. -/
theorem checkpoint_file_count (numExecutions epc : Nat) (hepc : 0 < epc) :
    (allCkpts numExecutions epc).length =
      numExecutions / epc + (if numExecutions % epc = 0 then 0 else 1) ∧
    numCkptFiles 130 5 2 6 = 3 := by
  constructor
  · rw [allCkpts, List.length_append,
      periodicCkpts_length numExecutions epc hepc]
    by_cases h : numExecutions % epc = 0 <;> simp [h]
  · rfl

theorem checkpoint_file_count_witness :
    ((allCkpts 13 6).length = 13 / 6 + (if 13 % 6 = 0 then 0 else 1) ∧
      numCkptFiles 130 5 2 6 = 3) :=
  checkpoint_file_count 13 6 (by decide)

end ClusterGCN
